import Mathlib

/-
Verification of the incremental code-backup engine
(Code_version_backup/code_backup), shallowly embedded in Lean 4.

File contents are modelled as strings; the SHA-256 digest of
calculate_file_hash is modelled by an arbitrary function
hashFn : String -> String supplied as a parameter (the digest is a
deterministic function of the byte content, which is all the proofs
need).  Relative paths are modelled as lists of path components
(directory names followed by the file name), matching
os.path.relpath / os.path.join on a POSIX filesystem.  Python dicts
built by comprehensions are modelled as association lists with
later-entries-win lookup.
-/

namespace CodeBackup

/-! ### String helpers (modelling Python str operations) -/

/-- Lexicographic code-point comparison of character lists, as Python
string comparison does. -/
def charsLt : List Char → List Char → Bool
  | [], [] => false
  | [], _ :: _ => true
  | _ :: _, [] => false
  | a :: as, b :: bs =>
    if a.toNat < b.toNat then true
    else if b.toNat < a.toNat then false
    else charsLt as bs

/-- Python string comparison (s < t), lexicographic on code points. -/
def stringLt (s t : String) : Bool := charsLt s.toList t.toList

/-- Does the first character list start with the second one. -/
def charsBeginWith : List Char → List Char → Bool
  | _, [] => true
  | [], _ :: _ => false
  | c :: cs, p :: ps => c == p && charsBeginWith cs ps

/-- Python substring test (sub in s). -/
def containsSub : List Char → List Char → Bool
  | [], pat => pat.isEmpty
  | c :: cs, pat => charsBeginWith (c :: cs) pat || containsSub cs pat

def strContains (s sub : String) : Bool := containsSub s.toList sub.toList

/-- Python str.startswith. -/
def strBeginsWith (s pre : String) : Bool := charsBeginWith s.toList pre.toList

/-- Python str.endswith. -/
def strEndsWith (s suf : String) : Bool :=
  charsBeginWith s.toList.reverse suf.toList.reverse

/-- ASCII lower-casing of one character, as Python str.lower does on
ASCII input. -/
def asciiLower (c : Char) : Char :=
  if 65 ≤ c.toNat ∧ c.toNat ≤ 90 then Char.ofNat (c.toNat + 32) else c

/-- Python str.lower (ASCII fragment). -/
def strLower (s : String) : String := String.mk (s.toList.map asciiLower)

/-- The extension part of os.path.splitext: the suffix starting at the
last dot, unless that dot lies in the leading run of dots of the name
(so .bashrc has no extension). -/
def extOf (name : String) : String :=
  let cs := name.toList
  let leadingDots := (cs.takeWhile (fun c => c = '.')).length
  match ((cs.enum.filter (fun x => x.2 = '.')).map (fun x => x.1)).getLast? with
  | none => ""
  | some di => if leadingDots ≤ di then String.mk (cs.drop di) else ""

/-! ### Association lists modelling Python dicts -/

/-- Lookup in an association list where later entries overwrite
earlier ones, as in a Python dict built from a comprehension. -/
def dictLookup {α β : Type} [DecidableEq α] : List (α × β) → α → Option β
  | [], _ => none
  | kv :: rest, k =>
    match dictLookup rest k with
    | some v => some v
    | none => if kv.1 = k then some kv.2 else none

/-- Python max over a list of strings: the first maximal element under
lexicographic comparison, or none for the empty list. -/
def maxName (names : List String) : Option String :=
  names.foldl
    (fun acc d =>
      match acc with
      | none => some d
      | some m => if stringLt m d then some d else some m)
    none

/-! ### Source tree and traversal (os.walk with directory pruning) -/

/-- One file of the source tree: name, byte content (as a string),
size and mtime. -/
structure SrcFile where
  name : String
  content : String
  size : Nat
  mtime : Nat
deriving DecidableEq

mutual
/-- A directory of the source tree: subdirectories and files, in
listing order. -/
inductive SrcTree where
  | node (dirs : SrcDirs) (files : List SrcFile)
/-- The subdirectory list of a directory (name and subtree each). -/
inductive SrcDirs where
  | nil
  | cons (name : String) (tree : SrcTree) (rest : SrcDirs)
end

mutual
/-- os.walk over the source tree with the in-place pruning
dirs[:] = [d for d in dirs if d not in exclude_folders] of
copy_code_files: yields each file together with the list of directory
components leading to it.  Excluded directories are pruned at descent
time, so their subtrees are never visited. -/
def walkTree (exclude_folders : List String) : SrcTree → List (List String × SrcFile)
  | SrcTree.node dirs files =>
    files.map (fun f => ([], f)) ++ walkDirs exclude_folders dirs
def walkDirs (exclude_folders : List String) : SrcDirs → List (List String × SrcFile)
  | SrcDirs.nil => []
  | SrcDirs.cons name tree rest =>
    (if exclude_folders.contains name then []
     else (walkTree exclude_folders tree).map (fun pf => (name :: pf.1, pf.2)))
    ++ walkDirs exclude_folders rest
end

/-! ### Manifest data model (backup_info.json) -/

/-- One entry of backup_info files, as assembled in copy_code_files. -/
structure FileRecord where
  path : List String
  type : String
  size : Nat
  hash : String
  modified : Nat
  changed_since_last_backup : Bool
  /-- The change report reads this key with dict.get; copy_code_files
  never writes it, which the model reflects by the engine always
  storing none here. -/
  existed_in_last_backup : Option Bool
deriving DecidableEq

/-- One entry of pkg_resources.working_set. -/
structure Pkg where
  key : String
  version : String
  location : String
deriving DecidableEq

/-- One recorded package, as built by get_installed_packages.  The
environment key is only present in the filtered branch. -/
structure PkgRecord where
  name : String
  version : String
  location : String
  environment : Option String
deriving DecidableEq

/-- The manifest written to backup_info.json (the fields the claims
are about). -/
structure BackupInfo where
  timestamp : String
  description : String
  tags : List String
  files : List FileRecord
  statistics : List (String × Nat)
  exclude_folders : List String
  packages : List PkgRecord
deriving DecidableEq

/-- The CODE_FILE_TYPES set of copy_code_files, in source order. -/
def CODE_FILE_TYPES : List String :=
  [".py", ".md", ".txt", ".json", ".yml", ".yaml", ".js", ".html",
   ".css", ".sql", ".sh", ".bat", ".ini", ".conf", ".xml", ".toml"]

/-- The first environment name of env_info_name whose name occurs in
the lower-cased package location (Python next over the generator). -/
def firstMatchingEnv (env_info_name : List String) (location : String) : Option String :=
  env_info_name.find? (fun n => strContains (strLower location) n)

/-- get_installed_packages: with a non-empty env_info_name only the
packages whose location mentions one of the names are kept, tagged
with the first matching name; otherwise every package of the working
set is recorded, untagged. -/
def get_installed_packages (env_info_name : List String) (working_set : List Pkg) :
    List PkgRecord :=
  working_set.foldl
    (fun packages pkg =>
      if ¬ env_info_name.isEmpty then
        if env_info_name.any (fun n => strContains (strLower pkg.location) n) then
          packages ++ [⟨pkg.key, pkg.version, pkg.location,
                        firstMatchingEnv env_info_name pkg.location⟩]
        else packages
      else packages ++ [⟨pkg.key, pkg.version, pkg.location, none⟩])
    []

/-! ### The backup engine (copy_code_files) -/

/-- The destination root: backup directory names paired with the
manifest stored in the directory, or none while backup_info.json has
not been written (or is unreadable). -/
abbrev DestState := List (String × Option BackupInfo)

/-- os.makedirs(backup_dir): the timestamped directory is created
(with no manifest yet) unless it already exists.  In the source this
happens BEFORE the scan for the most recent previous backup. -/
def ensureBackupDir (target_state : DestState) (timestamp : String) : DestState :=
  if (target_state.map (fun e => e.1)).contains timestamp then target_state
  else target_state ++ [(timestamp, none)]

/-- Lines 124-135 of file_copy.py: take the lexicographically greatest
backup directory name; if it holds a readable manifest, build the
path-to-hash dict from its files, otherwise use the empty dict.  No
older directory is ever consulted. -/
def lastBackupHash (target_state : DestState) : List (List String × String) :=
  match maxName (target_state.map (fun e => e.1)) with
  | none => []
  | some last_backup_dir =>
    match dictLookup target_state last_backup_dir with
    | some (some last_info) => last_info.files.map (fun r => (r.path, r.hash))
    | _ => []

/-- Lines 156-159 of file_copy.py: a file is modified when its path is
absent from the previous hash dict or the stored hash differs. -/
def changedFlag (last_backup_hash : List (List String × String))
    (relative_path : List String) (file_hash : String) : Bool :=
  match dictLookup last_backup_hash relative_path with
  | none => true
  | some old => if old = file_hash then false else true

/-- The body of the traversal loop of copy_code_files for one walked
file: files whose lower-cased extension is recognized become a
FileRecord, the rest are skipped. -/
def recordOf (hashFn : String → String)
    (last_backup_hash : List (List String × String))
    (pf : List String × SrcFile) : Option FileRecord :=
  let file_ext := strLower (extOf pf.2.name)
  if CODE_FILE_TYPES.contains file_ext then
    let relative_path := pf.1 ++ [pf.2.name]
    let file_hash := hashFn pf.2.content
    some ⟨relative_path, file_ext, pf.2.size, file_hash, pf.2.mtime,
          changedFlag last_backup_hash relative_path file_hash, none⟩
  else none

/-- statistics[file_ext] += 1 (the key is present, being initialised
for every recognized extension). -/
def incrStat (st : List (String × Nat)) (e : String) : List (String × Nat) :=
  st.map (fun kv => if kv.1 = e then (kv.1, kv.2 + 1) else kv)

/-- Store the freshly written manifest under its directory name. -/
def setEntry (target_state : DestState) (name : String) (info : BackupInfo) : DestState :=
  target_state.map (fun e => if e.1 = name then (name, some info) else e)

/-- copy_code_files: one backup run.  In source order: the caller
supplied env_info_name is overwritten with a hard-coded set, the
timestamped backup directory is created, the most recent backup is
looked up (the just-created directory being already present), the
tree is walked building the records and statistics, the packages are
collected, and the manifest is written.  Returns the new destination
state and the manifest. -/
def copy_code_files (hashFn : String → String) (working_set : List Pkg)
    (source_dir : SrcTree) (target_state : DestState) (timestamp : String)
    (description : String) (tags : List String)
    (exclude_folders : List String) (env_info_name : List String) :
    DestState × BackupInfo :=
  let env_info_name := ["lcychat", "openmmlab"]
  let afterMkdir := ensureBackupDir target_state timestamp
  let last_backup_hash := lastBackupHash afterMkdir
  let records := (walkTree exclude_folders source_dir).filterMap
    (recordOf hashFn last_backup_hash)
  let statistics := records.foldl (fun st r => incrStat st r.type)
    (CODE_FILE_TYPES.map (fun e => (e, 0)))
  let packages := get_installed_packages env_info_name working_set
  let info : BackupInfo :=
    ⟨timestamp, description, tags, records, statistics, exclude_folders, packages⟩
  (setEntry afterMkdir timestamp info, info)

/-! ### The change report (generate_change_report) -/

structure ChangeReport where
  new : List (List String)
  modified : List (List String)
  unchanged : List (List String)
deriving DecidableEq

/-- generate_change_report: a changed file goes to the modified list
when its record carries a truthy existed_in_last_backup value (read
with dict.get, so a missing key is falsy), to the new list otherwise;
an unchanged file goes to the unchanged list. -/
def generate_change_report (files : List FileRecord) : ChangeReport :=
  files.foldl
    (fun changes file_info =>
      if file_info.changed_since_last_backup then
        if file_info.existed_in_last_backup.getD false then
          ⟨changes.new, changes.modified ++ [file_info.path], changes.unchanged⟩
        else
          ⟨changes.new ++ [file_info.path], changes.modified, changes.unchanged⟩
      else ⟨changes.new, changes.modified, changes.unchanged ++ [file_info.path]⟩)
    ⟨[], [], []⟩

/-! ### The retry decorator (retry_on_error) and the engine copy -/

/-- A copy operation is modelled by the outcome of each attempt:
attempt number k either succeeds or raises a (transient) error. -/
abbrev CopyAttempts := Nat → Except String Unit

/-- The while-loop of retry_on_error: k is the next attempt index,
the fuel is the number of attempts still allowed (max_retries minus
the failures so far).  On a failure with no fuel left the last error
is re-raised; a fuel of zero without any attempt falls through the
loop (Python returns None, modelled as success). -/
def retry_on_error_run (attempts : CopyAttempts) : Nat → Nat → Except String Unit
  | _, 0 => Except.ok ()
  | k, fuel + 1 =>
    match attempts k with
    | Except.ok _ => Except.ok ()
    | Except.error e =>
      if fuel = 0 then Except.error e else retry_on_error_run attempts (k + 1) fuel

/-- safe_copy_file: shutil.copy2 wrapped in retry_on_error with the
default bound of three attempts (and a fixed one-second delay between
them, which the pure model elides). -/
def safe_copy_file (attempts : CopyAttempts) : Except String Unit :=
  retry_on_error_run attempts 0 3

/-- The copy the backup engine actually performs for every candidate
file (line 170 of copy_code_files): one direct shutil.copy2 call, not
wrapped in the retry decorator. -/
def engine_copy (attempts : CopyAttempts) : Except String Unit :=
  attempts 0

/-- A copy that fails transiently on the first attempt only. -/
def flakyCopy : CopyAttempts :=
  fun k => if k = 0 then Except.error "transient" else Except.ok ()

/-! ### The retention manager (cleanup_old_backups) -/

/-- One directory entry of the destination root as the retention
manager sees it: its name, whether it is a directory, and its
last-modified time. -/
structure DestEntry where
  name : String
  isDir : Bool
  mtime : Nat
deriving DecidableEq

/-- The candidate list of cleanup_old_backups: every directory and
every file ending in .zip directly under the destination root. -/
def backupCandidates (target_entries : List DestEntry) : List DestEntry :=
  target_entries.filter (fun e => e.isDir || strEndsWith e.name ".zip")

/-- One step of a stable sort by modified time descending, matching
list.sort(key=getmtime, reverse=True): the entry is placed before the
first strictly older entry, after entries of equal mtime. -/
def insertByMtimeDesc (x : DestEntry) : List DestEntry → List DestEntry
  | [] => [x]
  | y :: ys => if y.mtime < x.mtime then x :: y :: ys else y :: insertByMtimeDesc x ys

def sortByMtimeDesc (l : List DestEntry) : List DestEntry :=
  l.foldr insertByMtimeDesc []

/-- cleanup_old_backups: sort the candidates by modified time
descending and delete every entry beyond position keep_count.
Returns the kept entries and the deleted entries. -/
def cleanup_old_backups (target_entries : List DestEntry) (keep_count : Nat) :
    List DestEntry × List DestEntry :=
  let backup_dirs := sortByMtimeDesc (backupCandidates target_entries)
  (backup_dirs.take keep_count, backup_dirs.drop keep_count)

/-! ### The restorer (restore_env.main, fragment selection) -/

/-- Does a file name match the glob requirements_*.txt. -/
def isReqFragment (f : String) : Bool :=
  strBeginsWith f "requirements_" && strEndsWith f ".txt"

/-- Lines 28-42 of restore_env.py: with a named environment the file
requirements_NAME.txt is selected; otherwise the FIRST file matching
requirements_*.txt, falling back to requirements.txt when none
matches.  When the selected file is absent the run reports not found
and stops (modelled as none). -/
def restore_env_select (env_name : Option String) (files : List String) :
    Option String :=
  let req_file :=
    match env_name with
    | some e => "requirements_" ++ e ++ ".txt"
    | none =>
      match files.filter isReqFragment with
      | [] => "requirements.txt"
      | f :: _ => f
  if files.contains req_file then some req_file else none

/-- The dependency fragments the restorer exposes: the single selected
file, or nothing on a not-found failure. -/
def restore_env_exposed (env_name : Option String) (files : List String) :
    Option (List String) :=
  (restore_env_select env_name files).map (fun f => [f])

/-- Modelled from the spec wording, for comparison with the code: the
restorer exposes the fragment of the named environment, or ALL
dependency fragments when unnamed, failing with a not-found error
when nothing matches. -/
def spec_restorer_exposed (env_name : Option String) (files : List String) :
    Option (List String) :=
  match env_name with
  | some e =>
    let req_file := "requirements_" ++ e ++ ".txt"
    if files.contains req_file then some [req_file] else none
  | none =>
    match files.filter isReqFragment with
    | [] => none
    | f :: rest => some (f :: rest)

/-! ### The dependency manifest fragments written by the engine -/

/-- Deduplication keeping first occurrences, as iterating a Python
dict built by insertion does. -/
def firstDedupGo (seen : List String) : List String → List String
  | [] => []
  | x :: xs =>
    if seen.contains x then firstDedupGo seen xs
    else x :: firstDedupGo (x :: seen) xs

def firstDedup (l : List String) : List String := firstDedupGo [] l

/-- One step of a stable ascending sort by package name, matching
sorted(pkgs, key=name). -/
def insertByNameAsc (x : PkgRecord) : List PkgRecord → List PkgRecord
  | [] => [x]
  | y :: ys => if stringLt x.name y.name then x :: y :: ys else y :: insertByNameAsc x ys

def sortByNameAsc (l : List PkgRecord) : List PkgRecord :=
  l.foldr insertByNameAsc []

/-- Lines 266-280 of file_copy.py: the packages are grouped by their
environment tag (unknown when untagged), and one
requirements_ENV.txt fragment of sorted name==version lines is
written per group. -/
def requirements_fragments (packages_info : List PkgRecord) :
    List (String × List String) :=
  (firstDedup (packages_info.map (fun p => p.environment.getD "unknown"))).map
    (fun env =>
      ("requirements_" ++ env ++ ".txt",
       (sortByNameAsc (packages_info.filter
           (fun p => p.environment.getD "unknown" = env))).map
         (fun p => p.name ++ "==" ++ p.version)))

/-! ### Concrete scenarios -/

def exFile : SrcFile := ⟨"a.py", "x", 1, 0⟩

def exSrc : SrcTree := SrcTree.node SrcDirs.nil [exFile]

/-- First ever run on the unchanged tree. -/
def run1 : DestState × BackupInfo :=
  copy_code_files id [] exSrc [] "20240101_000000" "" [] [] []

/-- Second run, immediately after, with the source unchanged. -/
def run2same : DestState × BackupInfo :=
  copy_code_files id [] exSrc run1.1 "20240101_000001" "" [] [] []

/-- The same source tree with the content of a.py edited. -/
def srcEdited : SrcTree := SrcTree.node SrcDirs.nil [⟨"a.py", "y", 1, 5⟩]

/-- Second run after editing a.py. -/
def run2edit : DestState × BackupInfo :=
  copy_code_files id [] srcEdited run1.1 "20240101_000001" "" [] [] []

def infoA : BackupInfo :=
  ⟨"2024-01-01 00:00:00", "", [], [⟨["f.py"], ".py", 1, "h1", 0, true, none⟩],
   [], [], []⟩

/-- An older backup directory with a readable manifest, followed by a
newer one whose backup_info.json is missing or unreadable. -/
def destWithCorrupt : DestState :=
  [("20240101_000000", some infoA), ("20240102_000000", none)]

/-- A tree with a recognized file inside an excluded directory. -/
def exSrcExcl : SrcTree :=
  SrcTree.node
    (SrcDirs.cons "secret" (SrcTree.node SrcDirs.nil [⟨"b.py", "s", 1, 0⟩])
      (SrcDirs.cons "sub" (SrcTree.node SrcDirs.nil [⟨"c.py", "z", 1, 0⟩])
        SrcDirs.nil))
    [⟨"a.py", "x", 1, 0⟩]

def runExcl : DestState × BackupInfo :=
  copy_code_files id [] exSrcExcl [] "20240101_000000" "" [] ["secret"] []

def recEx : FileRecord := ⟨["sub", "c.py"], ".py", 1, "z", 0, true, none⟩

/-- A destination root with three backup entries and one unrelated
file. -/
def exEntries : List DestEntry :=
  [⟨"20240101_000000", true, 10⟩, ⟨"20240102_000000.zip", false, 20⟩,
   ⟨"notes.log", false, 5⟩, ⟨"20240103_000000", true, 30⟩]

/-- A backup directory holding two dependency fragments. -/
def fragPairEx : List String := ["requirements_a.txt", "requirements_b.txt"]

/-! ## Theorems -/

/-! ### C1: idempotent re-run -/

/-- C1: idempotent re-run.  The claim states that a second run on an
unchanged tree records every file as unchanged.  The code creates the
new backup directory before resolving the prior manifest, so the
lookup selects the just-created empty directory, the prior hash map
is empty, and the second run records the identical file as changed:
the two manifests carry the same path and hash, yet
changed_since_last_backup is true in the second run as well. -/
theorem second_run_marks_unchanged_file_changed :
    run1.2.files.map (fun r => (r.path, r.hash, r.changed_since_last_backup))
      = [(["a.py"], "x", true)] ∧
    run2same.2.files.map (fun r => (r.path, r.hash, r.changed_since_last_backup))
      = [(["a.py"], "x", true)] := by
  decide

/-! ### C2: the per-file change-detection contract -/

theorem changedFlag_iff (m : List (List String × String)) (p : List String) (h : String) :
    changedFlag m p h = true ↔
      (dictLookup m p = none ∨ ∃ old, dictLookup m p = some old ∧ old ≠ h) := by
  rcases hm : dictLookup m p with _ | old
  · simp [changedFlag, hm]
  · by_cases he : old = h <;> simp [changedFlag, hm, he]

theorem recordOf_eq_some {hashFn : String → String}
    {m : List (List String × String)} {pf : List String × SrcFile}
    {r : FileRecord} (h : recordOf hashFn m pf = some r) :
    r.path = pf.1 ++ [pf.2.name] ∧ r.hash = hashFn pf.2.content ∧
    r.type = strLower (extOf pf.2.name) ∧
    CODE_FILE_TYPES.contains r.type = true ∧
    r.changed_since_last_backup = changedFlag m r.path r.hash ∧
    r.existed_in_last_backup = none := by
  simp only [recordOf] at h
  split at h
  case isTrue hc =>
    cases h
    exact ⟨rfl, rfl, rfl, hc, rfl, rfl⟩
  case isFalse hc => simp at h

theorem lastBackupHash_of_empty_root (timestamp : String) :
    lastBackupHash (ensureBackupDir [] timestamp) = [] := by
  simp [ensureBackupDir, lastBackupHash, maxName, dictLookup]

/-- C2: change detection contract.  For every record of a run, the
recorded changed_since_last_backup is true exactly when the relative
path is absent from the hash mapping the engine loaded from the most
recent backup directory, or the mapped hash differs from the current
one; and when the destination root holds no prior backup at all,
every record of the run is marked changed. -/
theorem copy_code_files_changed_iff (hashFn : String → String) (working_set : List Pkg)
    (source_dir : SrcTree) (target_state : DestState) (timestamp description : String)
    (tags exclude_folders env_info_name : List String) :
    (∀ r ∈ (copy_code_files hashFn working_set source_dir target_state timestamp
        description tags exclude_folders env_info_name).2.files,
      (r.changed_since_last_backup = true ↔
        (dictLookup (lastBackupHash (ensureBackupDir target_state timestamp)) r.path
            = none ∨
         ∃ old, dictLookup (lastBackupHash (ensureBackupDir target_state timestamp))
             r.path = some old ∧ old ≠ r.hash))) ∧
    (∀ r ∈ (copy_code_files hashFn working_set source_dir [] timestamp
        description tags exclude_folders env_info_name).2.files,
      r.changed_since_last_backup = true) := by
  constructor
  · intro r hr
    simp only [copy_code_files, List.mem_filterMap] at hr
    obtain ⟨pf, _, hpf⟩ := hr
    obtain ⟨_, _, _, _, hch, _⟩ := recordOf_eq_some hpf
    rw [hch]
    exact changedFlag_iff _ _ _
  · intro r hr
    simp only [copy_code_files, List.mem_filterMap] at hr
    obtain ⟨pf, _, hpf⟩ := hr
    obtain ⟨_, _, _, _, hch, _⟩ := recordOf_eq_some hpf
    rw [hch, lastBackupHash_of_empty_root]
    simp [changedFlag, dictLookup]

theorem copy_code_files_changed_iff_witness :
    (⟨["a.py"], ".py", 1, "x", 0, true, none⟩ : FileRecord) ∈ run1.2.files ∧
    (⟨["a.py"], ".py", 1, "x", 0, true, none⟩ : FileRecord).changed_since_last_backup
      = true :=
  ⟨by decide,
   (copy_code_files_changed_iff id [] exSrc [] "20240101_000000" "" [] [] []).2
     ⟨["a.py"], ".py", 1, "x", 0, true, none⟩ (by decide)⟩

/-! ### C3: prior-manifest selection and the missing fallback -/

/-- Modelled from the spec wording, for comparison with the code: the
most recent prior manifest is the lexicographically greatest backup
directory that CONTAINS A READABLE MANIFEST, directories with a
missing or corrupt manifest being skipped in favour of older ones. -/
def specPriorHash (target_state : DestState) : List (List String × String) :=
  let readable := target_state.filter (fun e => e.2.isSome)
  match maxName (readable.map (fun e => e.1)) with
  | none => []
  | some m =>
    match dictLookup readable m with
    | some (some info) => info.files.map (fun r => (r.path, r.hash))
    | _ => []

/-- C3 counterexample: with an older readable manifest and a newer
backup directory whose manifest is missing, the code resolves the
EMPTY prior mapping (it only ever consults the single greatest
directory name), while the spec wording requires falling back to the
older readable manifest. -/
theorem prior_manifest_no_fallback_cex :
    lastBackupHash destWithCorrupt = [] ∧
    specPriorHash destWithCorrupt = [(["f.py"], "h1")] ∧
    lastBackupHash destWithCorrupt ≠ specPriorHash destWithCorrupt := by
  decide

/-- C3 amended: the lookup consults only the lexicographically
greatest backup directory name; when the manifest of that directory
is missing or unreadable, the run proceeds with the empty prior
mapping (every file treated as new) and never falls back to an older
directory. -/
theorem lastBackupHash_missing_manifest (target_state : DestState) (m : String)
    (h1 : maxName (target_state.map (fun e => e.1)) = some m)
    (h2 : dictLookup target_state m = some none) :
    lastBackupHash target_state = [] := by
  simp [lastBackupHash, h1, h2]

theorem lastBackupHash_missing_manifest_witness :
    maxName (destWithCorrupt.map (fun e => e.1)) = some "20240102_000000" ∧
    dictLookup destWithCorrupt "20240102_000000" = some none ∧
    lastBackupHash destWithCorrupt = [] :=
  ⟨by decide, by decide,
   lastBackupHash_missing_manifest destWithCorrupt "20240102_000000"
     (by decide) (by decide)⟩

/-! ### C4: the change report -/

/-- C4: the claim states that a changed file present in the preceding
manifest is classified as modified.  a.py is present in the first
manifest and changed in the second run, yet the report classifies it
as new: copy_code_files never writes the existed_in_last_backup key
that generate_change_report reads, so the modified list is always
empty. -/
theorem change_report_modified_always_empty :
    run1.2.files.map (fun r => r.path) = [["a.py"]] ∧
    run2edit.2.files.map (fun r => (r.path, r.changed_since_last_backup))
      = [(["a.py"], true)] ∧
    (generate_change_report run2edit.2.files).modified = [] ∧
    (generate_change_report run2edit.2.files).new = [["a.py"]] := by
  decide

/-! ### C5: the retry policy and the copy the engine performs -/

/-- C5 counterexample: a copy failing transiently on its first attempt
only.  The bounded-retry copy succeeds on the second attempt; the
copy the backup engine performs is a single direct attempt and fails,
so the copy actually performed by the engine is NOT the bounded-retry
copy. -/
theorem engine_copy_is_not_retried_cex :
    engine_copy flakyCopy = Except.error "transient" ∧
    safe_copy_file flakyCopy = Except.ok () ∧
    engine_copy flakyCopy ≠ safe_copy_file flakyCopy := by
  refine ⟨rfl, rfl, fun h => ?_⟩
  rw [show engine_copy flakyCopy = Except.error "transient" from rfl,
      show safe_copy_file flakyCopy = Except.ok () from rfl] at h
  exact Except.noConfusion h

/-- C5 amended: safe_copy_file retries a failed copy with a fixed
delay and succeeds exactly when one of its three bounded attempts
succeeds, re-raising the last error otherwise; but the backup engine
copies every candidate file with a single direct attempt, outside the
retry policy (hash computation is likewise performed directly and
never retried). -/
theorem safe_copy_file_bounded_retries (attempts : CopyAttempts) :
    (safe_copy_file attempts = Except.ok () ↔
      (attempts 0 = Except.ok () ∨ attempts 1 = Except.ok () ∨
       attempts 2 = Except.ok ())) ∧
    engine_copy attempts = attempts 0 := by
  constructor
  · rcases h0 : attempts 0 with e0 | ⟨⟩ <;>
      rcases h1 : attempts 1 with e1 | ⟨⟩ <;>
      rcases h2 : attempts 2 with e2 | ⟨⟩ <;>
      simp [safe_copy_file, retry_on_error_run, h0, h1, h2]
  · rfl

/-! ### C6: exclusion soundness of the traversal -/

mutual
theorem walkTree_not_excluded (exclude_folders : List String) :
    ∀ (t : SrcTree), ∀ pf ∈ walkTree exclude_folders t, ∀ d ∈ pf.1,
      d ∉ exclude_folders
  | SrcTree.node dirs files => by
    intro pf hpf d hd
    simp only [walkTree, List.mem_append] at hpf
    rcases hpf with hf | hdirs
    · obtain ⟨f, _, rfl⟩ := List.mem_map.mp hf
      simp at hd
    · exact walkDirs_not_excluded exclude_folders dirs pf hdirs d hd
theorem walkDirs_not_excluded (exclude_folders : List String) :
    ∀ (ds : SrcDirs), ∀ pf ∈ walkDirs exclude_folders ds, ∀ d ∈ pf.1,
      d ∉ exclude_folders
  | SrcDirs.nil => by
    intro pf hpf
    simp [walkDirs] at hpf
  | SrcDirs.cons name tree rest => by
    intro pf hpf d hd
    simp only [walkDirs, List.mem_append] at hpf
    rcases hpf with hhead | htail
    · by_cases hex : exclude_folders.contains name = true
      · rw [if_pos hex] at hhead
        simp at hhead
      · rw [if_neg hex] at hhead
        obtain ⟨pf0, hpf0, rfl⟩ := List.mem_map.mp hhead
        rcases List.mem_cons.mp hd with rfl | hd0
        · intro hmem
          exact hex (by simpa using hmem)
        · exact walkTree_not_excluded exclude_folders tree pf0 hpf0 d hd0
    · exact walkDirs_not_excluded exclude_folders rest pf htail d hd
end

/-- C6: exclusion soundness.  Every record of a manifest produced by
a backup run has a relative path none of whose directory components
is an excluded name: files below an excluded directory (recognized
extension or not) never enter the manifest, the traversal having
pruned the directory at descent time. -/
theorem copy_code_files_exclusion (hashFn : String → String) (working_set : List Pkg)
    (source_dir : SrcTree) (target_state : DestState) (timestamp description : String)
    (tags exclude_folders env_info_name : List String) :
    ∀ r ∈ (copy_code_files hashFn working_set source_dir target_state timestamp
        description tags exclude_folders env_info_name).2.files,
      ∀ d ∈ exclude_folders, d ∉ r.path.dropLast := by
  intro r hr d hd
  simp only [copy_code_files, List.mem_filterMap] at hr
  obtain ⟨pf, hpf, hrec⟩ := hr
  obtain ⟨hpath, _⟩ := recordOf_eq_some hrec
  rw [hpath, List.dropLast_concat]
  intro hmem
  exact walkTree_not_excluded exclude_folders source_dir pf hpf d hmem hd

theorem copy_code_files_exclusion_witness :
    recEx ∈ runExcl.2.files ∧ "secret" ∈ (["secret"] : List String) ∧
    "secret" ∉ recEx.path.dropLast :=
  ⟨by decide, by decide,
   copy_code_files_exclusion id [] exSrcExcl [] "20240101_000000" "" [] ["secret"] []
     recEx (by decide) "secret" (by decide)⟩

/-! ### C7: the statistics counting invariant -/

theorem dictLookup_incrStat (st : List (String × Nat)) (k e : String) :
    dictLookup (incrStat st k) e
      = (dictLookup st e).map (fun n => if k = e then n + 1 else n) := by
  induction st with
  | nil => rfl
  | cons kv rest ih =>
    simp only [incrStat, List.map_cons] at ih ⊢
    simp only [dictLookup]
    rw [ih]
    cases hrest : dictLookup rest e with
    | some v => simp
    | none =>
      by_cases h1 : kv.1 = k
      · by_cases h2 : kv.1 = e
        · have hke : k = e := h1.symm.trans h2
          simp [h1, h2, hke]
        · have hke : ¬ (k = e) := fun hke => h2 (h1.trans hke)
          have hek : ¬ (e = k) := fun hh => hke hh.symm
          simp [h1, h2, hke, hek]
      · by_cases h2 : kv.1 = e
        · have hke : ¬ (k = e) := fun hke => h1 (h2.trans hke.symm)
          have hek : ¬ (e = k) := fun hh => hke hh.symm
          simp [h1, h2, hke, hek]
        · simp [h1, h2]

theorem dictLookup_fold_incr (recs : List FileRecord) (st : List (String × Nat))
    (e : String) :
    dictLookup (recs.foldl (fun s r => incrStat s r.type) st) e
      = (dictLookup st e).map
          (fun n => n + (recs.filter (fun r => r.type = e)).length) := by
  induction recs generalizing st with
  | nil =>
    simp
  | cons r rs ih =>
    simp only [List.foldl_cons]
    rw [ih, dictLookup_incrStat]
    by_cases he : r.type = e <;>
      cases hst : dictLookup st e <;>
      simp [he, hst, List.filter_cons] <;>
      omega

theorem dictLookup_zero_init (l : List String) (k : String) :
    dictLookup (l.map (fun e => (e, 0))) k = if k ∈ l then some 0 else none := by
  induction l with
  | nil => rfl
  | cons x xs ih =>
    simp only [List.map_cons, dictLookup, ih]
    by_cases hk : k ∈ xs
    · simp [hk]
    · by_cases hx : x = k
      · simp [hk, hx]
      · have hxk : ¬ (k = x) := fun hh => hx hh.symm
        simp [hk, hx, hxk]

/-- C7: manifest counting invariant.  In the manifest of any run, the
statistics map sends every recognized extension to the exact number
of records carrying that extension, and every record carries a
recognized extension. -/
theorem copy_code_files_statistics (hashFn : String → String) (working_set : List Pkg)
    (source_dir : SrcTree) (target_state : DestState) (timestamp description : String)
    (tags exclude_folders env_info_name : List String) :
    (∀ e ∈ CODE_FILE_TYPES,
      dictLookup (copy_code_files hashFn working_set source_dir target_state timestamp
          description tags exclude_folders env_info_name).2.statistics e
        = some (((copy_code_files hashFn working_set source_dir target_state timestamp
            description tags exclude_folders env_info_name).2.files.filter
              (fun r => r.type = e)).length)) ∧
    (∀ r ∈ (copy_code_files hashFn working_set source_dir target_state timestamp
        description tags exclude_folders env_info_name).2.files,
      r.type ∈ CODE_FILE_TYPES) := by
  constructor
  · intro e he
    simp only [copy_code_files]
    rw [dictLookup_fold_incr, dictLookup_zero_init]
    simp [he]
  · intro r hr
    simp only [copy_code_files, List.mem_filterMap] at hr
    obtain ⟨pf, _, hrec⟩ := hr
    obtain ⟨_, _, _, hc, _, _⟩ := recordOf_eq_some hrec
    simpa using hc

theorem copy_code_files_statistics_witness :
    dictLookup run1.2.statistics ".py"
      = some ((run1.2.files.filter (fun r => r.type = ".py")).length) :=
  (copy_code_files_statistics id [] exSrc [] "20240101_000000" "" [] [] []).1
    ".py" (by decide)

/-! ### C8: retention -/

theorem insertByMtimeDesc_perm (x : DestEntry) (l : List DestEntry) :
    (insertByMtimeDesc x l).Perm (x :: l) := by
  induction l with
  | nil => exact List.Perm.refl _
  | cons y ys ih =>
    simp only [insertByMtimeDesc]
    by_cases h : y.mtime < x.mtime
    · rw [if_pos h]
    · rw [if_neg h]
      exact (ih.cons y).trans (List.Perm.swap x y ys)

theorem sortByMtimeDesc_perm (l : List DestEntry) :
    (sortByMtimeDesc l).Perm l := by
  induction l with
  | nil => exact List.Perm.refl _
  | cons x xs ih =>
    exact (insertByMtimeDesc_perm x (sortByMtimeDesc xs)).trans (ih.cons x)

theorem mem_insertByMtimeDesc {x y : DestEntry} {l : List DestEntry}
    (h : y ∈ insertByMtimeDesc x l) : y = x ∨ y ∈ l :=
  List.mem_cons.mp ((insertByMtimeDesc_perm x l).mem_iff.mp h)

theorem pairwise_insertByMtimeDesc {x : DestEntry} {l : List DestEntry}
    (h : l.Pairwise (fun a b => b.mtime ≤ a.mtime)) :
    (insertByMtimeDesc x l).Pairwise (fun a b => b.mtime ≤ a.mtime) := by
  induction l with
  | nil => simp [insertByMtimeDesc]
  | cons y ys ih =>
    rcases List.pairwise_cons.mp h with ⟨hy, hys⟩
    simp only [insertByMtimeDesc]
    by_cases hlt : y.mtime < x.mtime
    · rw [if_pos hlt]
      refine List.pairwise_cons.mpr ⟨?_, h⟩
      intro z hz
      rcases List.mem_cons.mp hz with rfl | hz2
      · omega
      · have := hy z hz2
        omega
    · rw [if_neg hlt]
      refine List.pairwise_cons.mpr ⟨?_, ih hys⟩
      intro z hz
      rcases mem_insertByMtimeDesc hz with rfl | hz2
      · omega
      · exact hy z hz2

theorem pairwise_sortByMtimeDesc (l : List DestEntry) :
    (sortByMtimeDesc l).Pairwise (fun a b => b.mtime ≤ a.mtime) := by
  induction l with
  | nil => simp [sortByMtimeDesc]
  | cons x xs ih => exact pairwise_insertByMtimeDesc ih

/-- C8: retention.  Among the backup candidates (directories and .zip
archives directly under the destination root), the retention manager
deletes nothing when at most keep_count candidates exist; otherwise
it deletes exactly candidates-minus-keep_count entries and keeps
keep_count, every deleted entry being at most as recent (by modified
time) as every kept entry, and kept and deleted entries together are
exactly the candidates. -/
theorem cleanup_old_backups_retention (target_entries : List DestEntry)
    (keep_count : Nat) :
    ((backupCandidates target_entries).length ≤ keep_count →
      (cleanup_old_backups target_entries keep_count).2 = []) ∧
    (keep_count < (backupCandidates target_entries).length →
      (cleanup_old_backups target_entries keep_count).2.length
          = (backupCandidates target_entries).length - keep_count ∧
      (cleanup_old_backups target_entries keep_count).1.length = keep_count) ∧
    (∀ d ∈ (cleanup_old_backups target_entries keep_count).2,
      ∀ k ∈ (cleanup_old_backups target_entries keep_count).1,
        d.mtime ≤ k.mtime) ∧
    ((cleanup_old_backups target_entries keep_count).1
        ++ (cleanup_old_backups target_entries keep_count).2).Perm
      (backupCandidates target_entries) := by
  have hlen : (sortByMtimeDesc (backupCandidates target_entries)).length
      = (backupCandidates target_entries).length :=
    (sortByMtimeDesc_perm (backupCandidates target_entries)).length_eq
  refine ⟨?_, ?_, ?_, ?_⟩
  · intro h
    simp only [cleanup_old_backups]
    exact List.drop_eq_nil_of_le (by omega)
  · intro h
    simp only [cleanup_old_backups, List.length_drop, List.length_take]
    omega
  · intro d hd k hk
    simp only [cleanup_old_backups] at hd hk
    have hp := pairwise_sortByMtimeDesc (backupCandidates target_entries)
    rw [← List.take_append_drop keep_count
        (sortByMtimeDesc (backupCandidates target_entries))] at hp
    exact (List.pairwise_append.mp hp).2.2 k hk d hd
  · simp only [cleanup_old_backups]
    rw [List.take_append_drop]
    exact sortByMtimeDesc_perm _

theorem cleanup_old_backups_retention_witness :
    1 < (backupCandidates exEntries).length ∧
    (cleanup_old_backups exEntries 1).2.length
        = (backupCandidates exEntries).length - 1 ∧
    (cleanup_old_backups exEntries 1).1.length = 1 :=
  ⟨by decide, ((cleanup_old_backups_retention exEntries 1).2.1 (by decide)).1,
   ((cleanup_old_backups_retention exEntries 1).2.1 (by decide)).2⟩

/-! ### C9: restorer fragment exposure -/

/-- C9 counterexample: with two dependency fragments present and no
environment name, the restorer exposes only the FIRST matching
fragment, while the claim states that all fragments are exposed. -/
theorem restorer_not_all_fragments_cex :
    restore_env_exposed none fragPairEx = some ["requirements_a.txt"] ∧
    spec_restorer_exposed none fragPairEx
      = some ["requirements_a.txt", "requirements_b.txt"] ∧
    restore_env_exposed none fragPairEx ≠ spec_restorer_exposed none fragPairEx := by
  decide

/-- C9 amended: with a named environment the restorer selects exactly
requirements_NAME.txt, exposing it when present and failing with
not-found when that file is absent; with no name it selects the first
file matching requirements_*.txt (a single fragment, not all of
them), this selected fragment always being present, and when no file
matches it falls back to requirements.txt, exposing that file when
present and failing with not-found otherwise. -/
theorem restore_env_select_amended :
    (∀ (e : String) (files : List String),
      ("requirements_" ++ e ++ ".txt") ∈ files →
      restore_env_select (some e) files
        = some ("requirements_" ++ e ++ ".txt")) ∧
    (∀ (e : String) (files : List String),
      ("requirements_" ++ e ++ ".txt") ∉ files →
      restore_env_select (some e) files = none) ∧
    (∀ (files : List String) (f : String) (rest : List String),
      files.filter isReqFragment = f :: rest →
      restore_env_select none files = some f) ∧
    (∀ (files : List String),
      files.filter isReqFragment = [] →
      restore_env_select none files
        = if "requirements.txt" ∈ files then some "requirements.txt"
          else none) := by
  refine ⟨?_, ?_, ?_, ?_⟩
  · intro e files hmem
    simp [restore_env_select, hmem]
  · intro e files hmem
    simp [restore_env_select, hmem]
  · intro files f rest hf
    have hmem : f ∈ files :=
      List.mem_of_mem_filter (hf ▸ List.mem_cons_self f rest)
    simp [restore_env_select, hf, hmem]
  · intro files hf
    by_cases hmem : "requirements.txt" ∈ files <;>
      simp [restore_env_select, hf, hmem]

theorem restore_env_select_amended_witness :
    fragPairEx.filter isReqFragment
        = "requirements_a.txt" :: ["requirements_b.txt"] ∧
    restore_env_select none fragPairEx = some "requirements_a.txt" ∧
    ("requirements_" ++ "a" ++ ".txt") ∈ fragPairEx ∧
    restore_env_select (some "a") fragPairEx
      = some ("requirements_" ++ "a" ++ ".txt") ∧
    restore_env_select (some "c") fragPairEx = none ∧
    (["requirements.txt"] : List String).filter isReqFragment = [] ∧
    restore_env_select none ["requirements.txt"]
      = if "requirements.txt" ∈ (["requirements.txt"] : List String)
        then some "requirements.txt" else none :=
  ⟨by decide,
   restore_env_select_amended.2.2.1 fragPairEx "requirements_a.txt"
     ["requirements_b.txt"] (by decide),
   by decide,
   restore_env_select_amended.1 "a" fragPairEx (by decide),
   restore_env_select_amended.2.1 "c" fragPairEx (by decide),
   by decide,
   restore_env_select_amended.2.2.2 ["requirements.txt"] (by decide)⟩

/-! ### C10: the caller-supplied env_info_name has no effect -/

/-- C10: noninterference of the caller-supplied environment-name set.
copy_code_files overwrites its env_info_name argument with a
hard-coded set before using it, so two runs differing only in that
argument record identical package lists and identical dependency
manifest fragments. -/
theorem env_info_name_has_no_effect (hashFn : String → String)
    (working_set : List Pkg) (source_dir : SrcTree) (target_state : DestState)
    (timestamp description : String) (tags exclude_folders : List String)
    (a b : List String) :
    (copy_code_files hashFn working_set source_dir target_state timestamp
        description tags exclude_folders a).2.packages
      = (copy_code_files hashFn working_set source_dir target_state timestamp
          description tags exclude_folders b).2.packages ∧
    requirements_fragments
        (copy_code_files hashFn working_set source_dir target_state timestamp
          description tags exclude_folders a).2.packages
      = requirements_fragments
          (copy_code_files hashFn working_set source_dir target_state timestamp
            description tags exclude_folders b).2.packages :=
  ⟨rfl, rfl⟩

end CodeBackup
